import Mathlib

/-!
Shallow embedding of `inheritance_dict` (src/inheritance_dict/__init__.py).

The module defines `BaseDict` (a dict whose `__getitem__` walks the candidate
keys produced by `_get_keys`), the mixin `FallbackMixin` (tuple decomposition
of keys, tuple-head storage keys), and four concrete classes:

  * `InheritanceDict(BaseDict)`                              — MRO expansion of type keys
  * `FallbackInheritanceDict(FallbackMixin, BaseDict)`       — tuple decomposition over identity
  * `TypeConvertingInheritanceDict(InheritanceDict)`         — runtime-type fallback over MRO
  * `FallbackTypeConvertingInheritanceDict(FallbackMixin, BaseDict)`
                                                             — tuple decomposition over identity

Python's type world is modelled by `PySystem`: an abstract MRO function on
type identifiers, a runtime-type function for atoms, and the type identifiers
of `tuple` and of `type` itself.  Keys are types, atoms (opaque non-type,
non-tuple values) or tuples of keys.  Dict values live in `Val`, which
includes the module-level `MISSING` sentinel (`MISSING = object()`), since
`BaseDict.__getitem__` compares stored values against it.
-/

/-- The host type system: `mro t` is `t.__mro__` (a list of type ids),
`typeOfAtom a` is `type(a)` for the atom `a`, `tupleTy` is the class `tuple`,
`typeTy` is the metaclass `type`. -/
structure PySystem where
  mro : Nat → List Nat
  typeOfAtom : Nat → Nat
  tupleTy : Nat
  typeTy : Nat

mutual

/-- A Python key: a type (class object), an opaque non-type non-tuple atom,
or a tuple of keys (`KeyList` is the tuple payload). -/
inductive Key where
  | type : Nat → Key
  | atom : Nat → Key
  | tup : KeyList → Key
deriving DecidableEq, Repr

inductive KeyList where
  | nil : KeyList
  | cons : Key → KeyList → KeyList
deriving DecidableEq, Repr

end

/-- Build a tuple payload from a list (notation helper for concrete keys). -/
def KeyList.ofList : List Key → KeyList
  | [] => KeyList.nil
  | x :: xs => KeyList.cons x (KeyList.ofList xs)

/-- The elements of a tuple payload, as a list. -/
def KeyList.toList : KeyList → List Key
  | KeyList.nil => []
  | KeyList.cons x xs => x :: KeyList.toList xs

/-- A stored value: either the module-level `MISSING` sentinel object or an
ordinary value. -/
inductive Val where
  | MISSING : Val
  | v : Nat → Val
deriving DecidableEq, Repr

/-- `type(key)`: the runtime type of a key. -/
def typeOf (S : PySystem) : Key → Nat
  | Key.type _ => S.typeTy
  | Key.atom a => S.typeOfAtom a
  | Key.tup _ => S.tupleTy

/-- The underlying `dict` contents, as an association list (first binding of a
key is the visible one; Python dicts are duplicate-free, which matters only
where stated). -/
abbrev Store := List (Key × Val)

/-- Exact `dict` read (`dict.get(k)` as an `Option`). -/
def dget : Store → Key → Option Val
  | [], _ => none
  | (k2, v2) :: rest, k => if k2 = k then some v2 else dget rest k

/-- Exact `dict` write (`dict.__setitem__`): replace the first binding of the
key, or append a new binding. -/
def dset : Store → Key → Val → Store
  | [], k, d => [(k, d)]
  | (k2, v2) :: rest, k, d =>
      if k2 = k then (k, d) :: rest else (k2, v2) :: dset rest k d

/-- Whether the dict has a binding for `k` (`k in dict`). -/
def containsKey (st : Store) (k : Key) : Bool := (dget st k).isSome

/-- One step of `BaseDict.__getitem__`'s loop body:
`result = super().get(item, MISSING); if result is not MISSING: return result`.
A binding whose value is the `MISSING` object reads as absent. -/
def hitVal (st : Store) (k : Key) : Option Val :=
  match dget st k with
  | some w => if w = Val.MISSING then none else some w
  | none => none

/-- `concat_map(func, items)`: concatenation of `func item` over `items`
(instance at a list of keys, used with `key.__mro__`). -/
def concat_map (f : Key → List Key) : List Key → List Key
  | [] => []
  | x :: xs => f x ++ concat_map f xs

/-- `concat_map(func, items)` instantiated at a tuple payload (the Python
function is one polymorphic generator; the two Lean instances share its
defining equations). -/
def concat_mapKL (f : Key → List Key) : KeyList → List Key
  | KeyList.nil => []
  | KeyList.cons x xs => f x ++ concat_mapKL f xs

/-- `BaseDict._get_keys`: yield only the key itself. -/
def baseGetKeys (k : Key) : List Key := [k]

/-- `BaseDict._set_key`: the key itself. -/
def baseSetKey (k : Key) : Key := k

/-- `InheritanceDict._get_keys`: for a type key, `concat_map` of
`super()._get_keys` (= `BaseDict._get_keys`) over `key.__mro__`; otherwise
delegate to `BaseDict._get_keys`. -/
def inhGetKeys (S : PySystem) (k : Key) : List Key :=
  match k with
  | Key.type t => concat_map baseGetKeys ((S.mro t).map Key.type)
  | _ => baseGetKeys k

/-- `FallbackMixin._get_keys` as inherited by
`FallbackInheritanceDict(FallbackMixin, BaseDict)`: for a tuple key,
`concat_map` of `super()._get_keys` over the elements; by the class's MRO,
`super()` here is `BaseDict`.  Non-tuple keys delegate to `BaseDict`. -/
def fallbackInhGetKeys (k : Key) : List Key :=
  match k with
  | Key.tup ks => concat_mapKL baseGetKeys ks
  | _ => baseGetKeys k

/-- `FallbackMixin._set_key`: the first element of a non-empty tuple key;
otherwise `super()._set_key` (= the key itself). -/
def fallbackSetKey (k : Key) : Key :=
  match k with
  | Key.tup (KeyList.cons e _) => e
  | _ => baseSetKey k

/-- `TypeConvertingInheritanceDict._get_keys`: yield
`super()._get_keys(key)` (= `InheritanceDict._get_keys`), then, when the key
is not a type, also `super()._get_keys(type(key))`. -/
def tcGetKeys (S : PySystem) (k : Key) : List Key :=
  match k with
  | Key.type t => inhGetKeys S (Key.type t)
  | _ => inhGetKeys S k ++ inhGetKeys S (Key.type (typeOf S k))

/-- `FallbackTypeConvertingInheritanceDict._get_keys`.  The class is declared
`FallbackTypeConvertingInheritanceDict(FallbackMixin, BaseDict)`, so
`super()` inside `FallbackMixin` is `BaseDict`: the behaviour coincides with
`FallbackInheritanceDict` and performs no type conversion and no MRO walk. -/
def ftcGetKeys (k : Key) : List Key :=
  match k with
  | Key.tup ks => concat_mapKL baseGetKeys ks
  | _ => baseGetKeys k

/-- The four concrete policy variants of the module. -/
inductive VariantName where
  | inh
  | fallbackInh
  | typeConv
  | fallbackTypeConv
deriving DecidableEq, Repr

/-- `_get_keys` of each concrete class. -/
def vGetKeys (S : PySystem) : VariantName → Key → List Key
  | VariantName.inh => inhGetKeys S
  | VariantName.fallbackInh => fallbackInhGetKeys
  | VariantName.typeConv => tcGetKeys S
  | VariantName.fallbackTypeConv => ftcGetKeys

/-- `_set_key` of each concrete class (`FallbackMixin` overrides it for the
two fallback classes; the others inherit `BaseDict._set_key`). -/
def vSetKey : VariantName → Key → Key
  | VariantName.inh => baseSetKey
  | VariantName.fallbackInh => fallbackSetKey
  | VariantName.typeConv => baseSetKey
  | VariantName.fallbackTypeConv => fallbackSetKey

/-- Which variants mix in `FallbackMixin` (tuple decomposition). -/
def tupleAware : VariantName → Bool
  | VariantName.fallbackInh => true
  | VariantName.fallbackTypeConv => true
  | _ => false

/-- The loop of `BaseDict.__getitem__`: first candidate whose stored value is
not `MISSING`. -/
def firstHit (st : Store) : List Key → Option Val
  | [] => none
  | c :: cs =>
      match hitVal st c with
      | some w => some w
      | none => firstHit st cs

/-- `BaseDict.__getitem__`: walk the candidates from `_get_keys`; return the
first hit, else raise `KeyError(key)`. -/
def getitem (gk : Key → List Key) (st : Store) (k : Key) : Except Key Val :=
  match firstHit st (gk k) with
  | some w => Except.ok w
  | none => Except.error k

/-- `BaseDict.get`: `self[key]`, with the `KeyError` turned into `default`. -/
def getD (gk : Key → List Key) (st : Store) (k : Key) (default : Val) : Val :=
  match getitem gk st k with
  | Except.ok w => w
  | Except.error _ => default

/-- `BaseDict.setdefault`: `self[key]` on success leaves the dict unchanged;
on `KeyError`, `self[self._set_key(key)] = default` (an exact `dict` write)
and `default` is returned.  Result: (returned value, new store). -/
def setdefault (gk : Key → List Key) (sk : Key → Key) (st : Store) (k : Key)
    (d : Val) : Val × Store :=
  match getitem gk st k with
  | Except.ok w => (w, st)
  | Except.error _ => (d, dset st (sk k) d)

/-- A concrete host type system for witnesses: type `0` is the root
(`object`), every other type `t` has MRO `[t, 0]`; the atom `a` has runtime
type `a + 1`; `tuple` is type `100` and `type` is type `101`. -/
def demoSys : PySystem :=
  ⟨fun t => t :: (if t = 0 then [] else [0]), fun a => a + 1, 100, 101⟩

example : vGetKeys demoSys VariantName.inh (Key.type 1) = [Key.type 1, Key.type 0] := rfl
example : vGetKeys demoSys VariantName.fallbackInh (Key.tup (KeyList.ofList [Key.type 1]))
    = [Key.type 1] := rfl
example : vGetKeys demoSys VariantName.typeConv (Key.atom 4)
    = [Key.atom 4, Key.type 5, Key.type 0] := rfl
example : vGetKeys demoSys VariantName.fallbackTypeConv (Key.tup (KeyList.ofList [Key.atom 2]))
    = [Key.atom 2] := rfl
example : getitem (vGetKeys demoSys VariantName.inh) [(Key.type 0, Val.v 1)] (Key.type 3)
    = Except.ok (Val.v 1) := rfl

/-! ### Basic lemmas about the embedded operations -/

theorem concat_map_base (l : List Key) : concat_map baseGetKeys l = l := by
  induction l with
  | nil => rfl
  | cons x xs ih => simp [concat_map, baseGetKeys, ih]

theorem concat_mapKL_base : (ks : KeyList) →
    concat_mapKL baseGetKeys ks = KeyList.toList ks
  | KeyList.nil => rfl
  | KeyList.cons x xs => by
      simp [concat_mapKL, baseGetKeys, KeyList.toList, concat_mapKL_base xs]

theorem firstHit_eq_none_iff (st : Store) : (l : List Key) →
    (firstHit st l = none ↔ ∀ c ∈ l, hitVal st c = none)
  | [] => by simp [firstHit]
  | c :: cs => by
      cases h : hitVal st c with
      | some w => simp [firstHit, h]
      | none => simp [firstHit, h, firstHit_eq_none_iff st cs]

theorem dget_dset_self (st : Store) (k : Key) (d : Val) :
    dget (dset st k d) k = some d := by
  induction st with
  | nil => simp [dget, dset]
  | cons p rest ih =>
      by_cases h : p.1 = k
      · simp [dset, dget, h]
      · simp [dset, dget, h, ih]

theorem dget_dset_ne (st : Store) (k : Key) (d : Val) (k2 : Key) (h : k2 ≠ k) :
    dget (dset st k d) k2 = dget st k2 := by
  have hk : ¬ k = k2 := fun hh => h hh.symm
  induction st with
  | nil => simp [dget, dset, hk]
  | cons p rest ih =>
      obtain ⟨k1, v1⟩ := p
      by_cases hp : k1 = k
      · subst hp
        simp [dset, dget, hk]
      · simp [dset, dget, hp, ih]

theorem dset_dset_same (st : Store) (k : Key) (d : Val) :
    dset (dset st k d) k d = dset st k d := by
  induction st with
  | nil => simp [dset]
  | cons p rest ih =>
      by_cases h : p.1 = k
      · simp [dset, h]
      · simp [dset, h, ih]

theorem length_dset_of_contains (st : Store) (k : Key) (d : Val)
    (h : containsKey st k = true) : (dset st k d).length = st.length := by
  induction st with
  | nil => simp [containsKey, dget] at h
  | cons p rest ih =>
      by_cases hp : p.1 = k
      · simp [dset, hp]
      · have h2 : containsKey rest k = true := by
          simpa [containsKey, dget, hp] using h
        simp [dset, hp, ih h2]

theorem length_dset_of_not_contains (st : Store) (k : Key) (d : Val)
    (h : containsKey st k = false) : (dset st k d).length = st.length + 1 := by
  induction st with
  | nil => simp [dset]
  | cons p rest ih =>
      by_cases hp : p.1 = k
      · simp [containsKey, dget, hp] at h
      · have h2 : containsKey rest k = false := by
          simpa [containsKey, dget, hp] using h
        simp [dset, hp, ih h2]

theorem hitVal_dset_self (st : Store) (k : Key) (d : Val) :
    hitVal (dset st k d) k = if d = Val.MISSING then none else some d := by
  simp [hitVal, dget_dset_self]

theorem hitVal_dset_ne (st : Store) (k : Key) (d : Val) (c : Key) (h : c ≠ k) :
    hitVal (dset st k d) c = hitVal st c := by
  simp [hitVal, dget_dset_ne st k d c h]

/-- For every variant, a lookup key that is not a tuple — and any key at all
under the non-tuple-aware variants — heads its own candidate sequence, given
that every MRO begins with the type itself (Python's guarantee for
`__mro__`). -/
theorem head_candidate (S : PySystem) (V : VariantName) (k : Key)
    (hwf : ∀ t : Nat, ∃ l, S.mro t = t :: l)
    (hk : (∀ ks, k ≠ Key.tup ks) ∨ tupleAware V = false) :
    ∃ rest, vGetKeys S V k = k :: rest := by
  cases V with
  | inh =>
      cases k with
      | type t =>
          obtain ⟨l, hl⟩ := hwf t
          exact ⟨concat_map baseGetKeys (l.map Key.type), by
            simp [vGetKeys, inhGetKeys, hl, concat_map, baseGetKeys]⟩
      | atom a => exact ⟨[], rfl⟩
      | tup ks => exact ⟨[], rfl⟩
  | fallbackInh =>
      cases k with
      | type t => exact ⟨[], rfl⟩
      | atom a => exact ⟨[], rfl⟩
      | tup ks =>
          rcases hk with h | h
          · exact absurd rfl (h ks)
          · simp [tupleAware] at h
  | typeConv =>
      cases k with
      | type t =>
          obtain ⟨l, hl⟩ := hwf t
          exact ⟨concat_map baseGetKeys (l.map Key.type), by
            simp [vGetKeys, tcGetKeys, inhGetKeys, hl, concat_map, baseGetKeys]⟩
      | atom a =>
          exact ⟨inhGetKeys S (Key.type (typeOf S (Key.atom a))), by
            simp [vGetKeys, tcGetKeys, inhGetKeys, baseGetKeys]⟩
      | tup ks =>
          exact ⟨inhGetKeys S (Key.type (typeOf S (Key.tup ks))), by
            simp [vGetKeys, tcGetKeys, inhGetKeys, baseGetKeys]⟩
  | fallbackTypeConv =>
      cases k with
      | type t => exact ⟨[], rfl⟩
      | atom a => exact ⟨[], rfl⟩
      | tup ks =>
          rcases hk with h | h
          · exact absurd rfl (h ks)
          · simp [tupleAware] at h

/-- Under the two MRO-walking variants, the candidates of a type key are
exactly its MRO, as type keys, in order. -/
theorem getKeys_type (S : PySystem) (V : VariantName) (t : Nat)
    (hV : V = VariantName.inh ∨ V = VariantName.typeConv) :
    vGetKeys S V (Key.type t) = (S.mro t).map Key.type := by
  rcases hV with h | h <;> subst h <;>
    simp [vGetKeys, inhGetKeys, tcGetKeys, concat_map_base]

/-- The Storage-Key Selector exactly as the specification's words describe it
(§4.2): the lookup key itself, except that tuple-decomposition variants store
under the first element of a non-empty tuple key.  Stated separately from the
code's `_set_key` so the two can be compared. -/
def storageKeySpec (V : VariantName) (k : Key) : Key :=
  if tupleAware V then
    match k with
    | Key.tup (KeyList.cons e _) => e
    | _ => k
  else k

/-- The code's `_set_key` agrees with the specification's Storage-Key
Selector on every variant and key. -/
theorem vSetKey_eq_spec (V : VariantName) (k : Key) :
    vSetKey V k = storageKeySpec V k := by
  cases V <;>
    (cases k with
     | tup ks => cases ks <;> rfl
     | type t => rfl
     | atom a => rfl)

/-! ### Claim theorems -/

/-- C1: the claim fails on the code.  `FallbackInheritanceDict` is declared
with bases `(FallbackMixin, BaseDict)`, so the generator inside the tuple
decomposition is `BaseDict._get_keys` (identity), not ancestor-chain
expansion: a type element of a tuple key contributes only itself, never its
ancestor chain.  At the failing input — type `1` with MRO `[1, 0]`, a value
stored only under its strict ancestor `0`, lookup key the 1-tuple
`(type 1,)` — the candidate sequence is just `[type 1]` and lookup raises
`KeyError` instead of returning the ancestor's value. -/
theorem C1_fallbackInh_no_ancestor_expansion :
    vGetKeys demoSys VariantName.fallbackInh (Key.tup (KeyList.ofList [Key.type 1]))
      = [Key.type 1]
    ∧ getitem (vGetKeys demoSys VariantName.fallbackInh)
        [(Key.type 0, Val.v 5)] (Key.tup (KeyList.ofList [Key.type 1]))
      = Except.error (Key.tup (KeyList.ofList [Key.type 1])) :=
  ⟨rfl, rfl⟩

/-- C2: the claim fails on the code.  `FallbackTypeConvertingInheritanceDict`
is declared with bases `(FallbackMixin, BaseDict)` — not
`TypeConvertingInheritanceDict` — so its generator performs no runtime-type
fallback and no MRO expansion.  At the failing input — atom `2` has runtime
type `3`, a value is stored under type `3`, lookup key is the 1-tuple
`(atom 2,)` — the candidate sequence is just `[atom 2]` and lookup raises
`KeyError` instead of falling back to `type(atom 2)`. -/
theorem C2_ftc_no_type_fallback :
    vGetKeys demoSys VariantName.fallbackTypeConv (Key.tup (KeyList.ofList [Key.atom 2]))
      = [Key.atom 2]
    ∧ getitem (vGetKeys demoSys VariantName.fallbackTypeConv)
        [(Key.type 3, Val.v 7)] (Key.tup (KeyList.ofList [Key.atom 2]))
      = Except.error (Key.tup (KeyList.ofList [Key.atom 2])) :=
  ⟨rfl, rfl⟩

/-- C3 counterexample: the claim as stated is false for a tuple key stored
exactly under a tuple-aware variant.  The store maps exactly the key
`(atom 0, atom 1)` to `v 7`, yet `FallbackInheritanceDict` lookup of that key
raises `KeyError`: tuple decomposition replaces the tuple by its elements, so
the exactly-stored tuple key is never a candidate. -/
theorem C3_counterexample :
    dget [(Key.tup (KeyList.ofList [Key.atom 0, Key.atom 1]), Val.v 7)]
        (Key.tup (KeyList.ofList [Key.atom 0, Key.atom 1]))
      = some (Val.v 7)
    ∧ getitem (vGetKeys demoSys VariantName.fallbackInh)
        [(Key.tup (KeyList.ofList [Key.atom 0, Key.atom 1]), Val.v 7)]
        (Key.tup (KeyList.ofList [Key.atom 0, Key.atom 1]))
      = Except.error (Key.tup (KeyList.ofList [Key.atom 0, Key.atom 1])) :=
  ⟨rfl, rfl⟩

/-- C3 (amended): exact-hit priority holds for every variant and every key
whose exactly stored value is not the `MISSING` sentinel, provided the key is
not a tuple under a tuple-decomposition variant (there the tuple key itself
is never a candidate); the MRO of every type is assumed to begin with the
type itself, as Python guarantees. -/
theorem C3_exact_hit_priority (S : PySystem) (V : VariantName) (st : Store)
    (k : Key) (w : Val) (hwf : ∀ t : Nat, ∃ l, S.mro t = t :: l)
    (hget : dget st k = some w) (hw : w ≠ Val.MISSING)
    (hk : (∀ ks, k ≠ Key.tup ks) ∨ tupleAware V = false) :
    getitem (vGetKeys S V) st k = Except.ok w := by
  obtain ⟨rest, hrest⟩ := head_candidate S V k hwf hk
  have hhit : hitVal st k = some w := by simp [hitVal, hget, hw]
  simp [getitem, hrest, firstHit, hhit]

/-- Witness for C3: an exactly stored atom key is returned unchanged by
`InheritanceDict` lookup. -/
theorem C3_witness :
    getitem (vGetKeys demoSys VariantName.inh) [(Key.atom 0, Val.v 4)] (Key.atom 0)
      = Except.ok (Val.v 4) :=
  C3_exact_hit_priority demoSys VariantName.inh [(Key.atom 0, Val.v 4)]
    (Key.atom 0) (Val.v 4)
    (fun t => ⟨if t = 0 then [] else [0], rfl⟩) rfl
    (by decide) (Or.inr rfl)

/-- C4 counterexample: the claim as stated is false under tuple-aware
variants.  For the empty tuple the candidate sequence is empty (not
non-empty), and for the tuple `(atom 0, atom 1)` the first candidate is
`atom 0`, not the lookup key itself. -/
theorem C4_counterexample :
    vGetKeys demoSys VariantName.fallbackInh (Key.tup KeyList.nil) = []
    ∧ vGetKeys demoSys VariantName.fallbackInh
        (Key.tup (KeyList.ofList [Key.atom 0, Key.atom 1]))
      = [Key.atom 0, Key.atom 1] :=
  ⟨rfl, rfl⟩

/-- C4 (amended): for every variant and every lookup key that is not a tuple
— and any key at all under the non-tuple-aware variants — the candidate
sequence is non-empty and its first element is the lookup key itself (for
type keys under ancestor expansion this is the type, at the head of its MRO).
Tuple keys under tuple-decomposition variants are instead governed by
decomposition: the empty tuple yields the empty sequence. -/
theorem C4_first_candidate (S : PySystem) (V : VariantName) (k : Key)
    (hwf : ∀ t : Nat, ∃ l, S.mro t = t :: l)
    (hk : (∀ ks, k ≠ Key.tup ks) ∨ tupleAware V = false) :
    (vGetKeys S V k).head? = some k := by
  obtain ⟨rest, hrest⟩ := head_candidate S V k hwf hk
  simp [hrest]

/-- Witness for C4: under `TypeConvertingInheritanceDict` the candidates of
the type key `type 1` begin with `type 1` itself. -/
theorem C4_witness :
    (vGetKeys demoSys VariantName.typeConv (Key.type 1)).head? = some (Key.type 1) :=
  C4_first_candidate demoSys VariantName.typeConv (Key.type 1)
    (fun t => ⟨if t = 0 then [] else [0], rfl⟩) (Or.inr rfl)

theorem firstHit_append_none (st : Store) (xs ys : List Key)
    (h : ∀ c ∈ xs, hitVal st c = none) :
    firstHit st (xs ++ ys) = firstHit st ys := by
  induction xs with
  | nil => simp
  | cons c cs ih =>
      have hc := h c (by simp)
      simp [firstHit, hc, ih (fun c2 hc2 => h c2 (by simp [hc2]))]

/-- C5 counterexample: the clause "never a multi-part tuple key" is false on
the code.  With lookup key `((atom 0, atom 1), atom 2)` on an empty
`FallbackInheritanceDict`, `setdefault` stores the default under the key's
first element `(atom 0, atom 1)` — itself a two-element tuple key in the
store. -/
theorem C5_counterexample :
    setdefault (vGetKeys demoSys VariantName.fallbackInh)
        (vSetKey VariantName.fallbackInh) []
        (Key.tup (KeyList.ofList
          [Key.tup (KeyList.ofList [Key.atom 0, Key.atom 1]), Key.atom 2]))
        (Val.v 3)
      = (Val.v 3, [(Key.tup (KeyList.ofList [Key.atom 0, Key.atom 1]), Val.v 3)]) :=
  rfl

/-- C5 (amended): for every variant, store, key and default — when lookup
hits, `setdefault` returns the found value and leaves the store entirely
unchanged (the default is not stored); when lookup misses, it returns the
default after exactly one exact-key write of the default under the storage
key the specification describes (`storageKeySpec`: the key itself, or the
first element of a non-empty tuple key under tuple-decomposition variants,
that element possibly itself a tuple), leaving every other key's binding
unchanged. -/
theorem C5_setdefault_frame (S : PySystem) (V : VariantName) (st : Store)
    (k : Key) (d : Val) :
    (∀ w, getitem (vGetKeys S V) st k = Except.ok w →
      setdefault (vGetKeys S V) (vSetKey V) st k d = (w, st))
    ∧ (getitem (vGetKeys S V) st k = Except.error k →
      setdefault (vGetKeys S V) (vSetKey V) st k d
          = (d, dset st (storageKeySpec V k) d)
        ∧ dget (dset st (storageKeySpec V k) d) (storageKeySpec V k) = some d
        ∧ ∀ k2, k2 ≠ storageKeySpec V k →
            dget (dset st (storageKeySpec V k) d) k2 = dget st k2) := by
  constructor
  · intro w hw
    simp [setdefault, hw]
  · intro he
    exact ⟨by simp [setdefault, he, vSetKey_eq_spec],
      dget_dset_self st _ d,
      fun k2 h2 => dget_dset_ne st _ d k2 h2⟩

/-- Witness for C5: a total miss on an empty `FallbackInheritanceDict` with
tuple key `(atom 0,)` stores the default under the head `atom 0`. -/
theorem C5_witness :
    setdefault (vGetKeys demoSys VariantName.fallbackInh)
        (vSetKey VariantName.fallbackInh) []
        (Key.tup (KeyList.ofList [Key.atom 0])) (Val.v 1)
      = (Val.v 1, [(Key.atom 0, Val.v 1)]) :=
  ((C5_setdefault_frame demoSys VariantName.fallbackInh []
      (Key.tup (KeyList.ofList [Key.atom 0])) (Val.v 1)).2 rfl).1

/-- C6: miss exhaustion — lookup raises `KeyError(k)` iff no candidate in the
full generated sequence for `k` has a stored (non-`MISSING`) value; the
error always carries the lookup key itself; and `get` is total, returning
the found value on a hit and the default exactly when lookup raises. -/
theorem C6_miss_exhaustion (S : PySystem) (V : VariantName) (st : Store)
    (k : Key) (d : Val) :
    (getitem (vGetKeys S V) st k = Except.error k
        ↔ ∀ c ∈ vGetKeys S V k, hitVal st c = none)
    ∧ (∀ e, getitem (vGetKeys S V) st k = Except.error e → e = k)
    ∧ (∀ w, getitem (vGetKeys S V) st k = Except.ok w →
        getD (vGetKeys S V) st k d = w)
    ∧ (getitem (vGetKeys S V) st k = Except.error k →
        getD (vGetKeys S V) st k d = d) := by
  refine ⟨?_, ?_, ?_, ?_⟩
  · rw [← firstHit_eq_none_iff st (vGetKeys S V k)]
    unfold getitem
    cases h : firstHit st (vGetKeys S V k) <;> simp [h]
  · intro e he
    unfold getitem at he
    cases h : firstHit st (vGetKeys S V k) <;> rw [h] at he <;> simp_all
  · intro w hw
    simp [getD, hw]
  · intro he
    simp [getD, he]

/-- Witness for C6: on the empty store every lookup misses and `get` returns
the default. -/
theorem C6_witness :
    getD (vGetKeys demoSys VariantName.inh) [] (Key.atom 0) (Val.v 2) = Val.v 2 :=
  (C6_miss_exhaustion demoSys VariantName.inh [] (Key.atom 0) (Val.v 2)).2.2.2 rfl

/-- C7: ancestor ordering — under the ancestor-expanding variants
(`InheritanceDict` and its subclass `TypeConvertingInheritanceDict`), looking
up a type key returns the value stored for the earliest type in the key's
MRO that has a stored (non-`MISSING`) entry: whenever the MRO splits as
`l1 ++ u :: l2` with every type of `l1` missing and `u` stored with `w`, the
lookup returns `w` — so over all stores, the result tracks the earliest
stored ancestor. -/
theorem C7_ancestor_ordering (S : PySystem) (V : VariantName)
    (hV : V = VariantName.inh ∨ V = VariantName.typeConv) (st : Store)
    (t : Nat) (l1 : List Nat) (u : Nat) (l2 : List Nat)
    (hsplit : S.mro t = l1 ++ u :: l2)
    (hmiss : ∀ a ∈ l1, hitVal st (Key.type a) = none)
    (w : Val) (hu : hitVal st (Key.type u) = some w) :
    getitem (vGetKeys S V) st (Key.type t) = Except.ok w := by
  have hkeys := getKeys_type S V t hV
  have hfh : firstHit st ((S.mro t).map Key.type) = some w := by
    rw [hsplit, List.map_append]
    rw [firstHit_append_none st _ _ (by
      intro c hc
      obtain ⟨a, ha, rfl⟩ := List.mem_map.mp hc
      exact hmiss a ha)]
    simp [firstHit, hu]
  simp [getitem, hkeys, hfh]

/-- Witness for C7: type `1` has MRO `[1, 0]`; with a value only at the
ancestor `0`, `InheritanceDict` lookup of `type 1` returns it. -/
theorem C7_witness :
    getitem (vGetKeys demoSys VariantName.inh) [(Key.type 0, Val.v 5)] (Key.type 1)
      = Except.ok (Val.v 5) :=
  C7_ancestor_ordering demoSys VariantName.inh (Or.inl rfl)
    [(Key.type 0, Val.v 5)] 1 [1] 0 [] rfl (by decide) (Val.v 5) (by decide)

/-- C8: the claim fails on the code.  `FallbackTypeConvertingInheritanceDict`
is declared over `(FallbackMixin, BaseDict)` and performs no runtime-type
fallback at all, although the claim covers every type-converting variant.
At the failing input — atom `4` of runtime type `5`, a value stored only
under `type 5` — `TypeConvertingInheritanceDict` finds the value via type
fallback, but `FallbackTypeConvertingInheritanceDict` raises `KeyError`. -/
theorem C8_ftc_instance_no_type_fallback :
    getitem (vGetKeys demoSys VariantName.typeConv)
        [(Key.type 5, Val.v 9)] (Key.atom 4)
      = Except.ok (Val.v 9)
    ∧ getitem (vGetKeys demoSys VariantName.fallbackTypeConv)
        [(Key.type 5, Val.v 9)] (Key.atom 4)
      = Except.error (Key.atom 4) :=
  ⟨rfl, rfl⟩

/-- C9 counterexample: the claim as stated is false when the storage key is
already bound — necessarily to the invisible `MISSING` sentinel for it to
count as a miss.  For `InheritanceDict` with store `{atom 0: MISSING}` the
single candidate of `atom 0` misses, yet two `setdefault` calls add no
binding: the store holds exactly one binding before and after, overwritten
in place rather than extended. -/
theorem C9_counterexample :
    vGetKeys demoSys VariantName.inh (Key.atom 0) = [Key.atom 0]
    ∧ hitVal [(Key.atom 0, Val.MISSING)] (Key.atom 0) = none
    ∧ setdefault (vGetKeys demoSys VariantName.inh) (vSetKey VariantName.inh)
        [(Key.atom 0, Val.MISSING)] (Key.atom 0) (Val.v 1)
      = (Val.v 1, [(Key.atom 0, Val.v 1)])
    ∧ setdefault (vGetKeys demoSys VariantName.inh) (vSetKey VariantName.inh)
        [(Key.atom 0, Val.v 1)] (Key.atom 0) (Val.v 1)
      = (Val.v 1, [(Key.atom 0, Val.v 1)]) :=
  ⟨rfl, rfl, rfl, rfl⟩

/-- C9 (amended): for every variant, store, key whose full candidate sequence
misses, and default — two successive `setdefault` calls return the default
both times and leave the store exactly as one call leaves it (one exact write
of the default under the storage key); the number of bindings grows by one
exactly when the storage key was absent, while a present binding (invisible
to the miss) is overwritten in place instead. -/
theorem C9_setdefault_idempotent (S : PySystem) (V : VariantName) (st : Store)
    (k : Key) (d : Val)
    (hmiss : ∀ c ∈ vGetKeys S V k, hitVal st c = none) :
    setdefault (vGetKeys S V) (vSetKey V) st k d = (d, dset st (vSetKey V k) d)
    ∧ setdefault (vGetKeys S V) (vSetKey V) (dset st (vSetKey V k) d) k d
        = (d, dset st (vSetKey V k) d)
    ∧ (containsKey st (vSetKey V k) = true →
        (dset st (vSetKey V k) d).length = st.length)
    ∧ (containsKey st (vSetKey V k) = false →
        (dset st (vSetKey V k) d).length = st.length + 1) := by
  have h1 : firstHit st (vGetKeys S V k) = none :=
    (firstHit_eq_none_iff st _).mpr hmiss
  have hget : getitem (vGetKeys S V) st k = Except.error k := by
    simp [getitem, h1]
  refine ⟨by simp [setdefault, hget], ?_,
    fun h => length_dset_of_contains st _ d h,
    fun h => length_dset_of_not_contains st _ d h⟩
  have key : ∀ l, (∀ c ∈ l, hitVal st c = none) →
      firstHit (dset st (vSetKey V k) d) l = none
      ∨ firstHit (dset st (vSetKey V k) d) l = some d := by
    intro l
    induction l with
    | nil => intro _; exact Or.inl rfl
    | cons c cs ih =>
        intro h
        have hc : hitVal st c = none := h c (by simp)
        have hrest := ih (fun c2 h2 => h c2 (by simp [h2]))
        by_cases hcs : c = vSetKey V k
        · by_cases hd : d = Val.MISSING
          · have hvv : hitVal (dset st (vSetKey V k) d) c = none := by
              rw [hcs, hitVal_dset_self]; simp [hd]
            simpa [firstHit, hvv] using hrest
          · have hvv : hitVal (dset st (vSetKey V k) d) c = some d := by
              rw [hcs, hitVal_dset_self]; simp [hd]
            exact Or.inr (by simp [firstHit, hvv])
        · have hvv : hitVal (dset st (vSetKey V k) d) c = hitVal st c :=
            hitVal_dset_ne st (vSetKey V k) d c hcs
          simpa [firstHit, hvv, hc] using hrest
  rcases key (vGetKeys S V k) hmiss with h2 | h2
  · have hget2 : getitem (vGetKeys S V) (dset st (vSetKey V k) d) k
        = Except.error k := by
      simp [getitem, h2]
    simp [setdefault, hget2, dset_dset_same]
  · have hget2 : getitem (vGetKeys S V) (dset st (vSetKey V k) d) k
        = Except.ok d := by
      simp [getitem, h2]
    simp [setdefault, hget2]

/-- Witness for C9: a genuine miss on the empty store inserts the default
under the key itself. -/
theorem C9_witness :
    setdefault (vGetKeys demoSys VariantName.inh) (vSetKey VariantName.inh)
      [] (Key.atom 3) (Val.v 2) = (Val.v 2, [(Key.atom 3, Val.v 2)]) :=
  (C9_setdefault_idempotent demoSys VariantName.inh [] (Key.atom 3) (Val.v 2)
    (by decide)).1

/-- The store with every binding whose value is the `MISSING` sentinel
removed. -/
def purgeMissing (st : Store) : Store :=
  st.filter (fun p => decide (p.2 ≠ Val.MISSING))

theorem dget_eq_none_of_not_mem (c : Key) : (st : Store) →
    (∀ p ∈ st, p.1 ≠ c) → dget st c = none
  | [], _ => rfl
  | (k1, v1) :: rest, h => by
      have h1 : k1 ≠ c := h (k1, v1) (by simp)
      simp [dget, h1, dget_eq_none_of_not_mem c rest
        (fun p hp => h p (by simp [hp]))]

theorem purgeMissing_cons_missing (k1 : Key) (rest : Store) :
    purgeMissing ((k1, Val.MISSING) :: rest) = purgeMissing rest := by
  simp [purgeMissing]

theorem purgeMissing_cons_keep (k1 : Key) (v1 : Val) (rest : Store)
    (h : v1 ≠ Val.MISSING) :
    purgeMissing ((k1, v1) :: rest) = (k1, v1) :: purgeMissing rest := by
  simp [purgeMissing, h]

theorem hitVal_purgeMissing (c : Key) : (st : Store) →
    (st.map Prod.fst).Nodup → hitVal (purgeMissing st) c = hitVal st c
  | [], _ => rfl
  | (k1, v1) :: rest, hnd => by
      simp only [List.map_cons, List.nodup_cons] at hnd
      obtain ⟨hmem, hrest⟩ := hnd
      by_cases hv : v1 = Val.MISSING
      · subst hv
        rw [purgeMissing_cons_missing]
        by_cases hk : k1 = c
        · subst hk
          have hnone : dget (purgeMissing rest) k1 = none := by
            refine dget_eq_none_of_not_mem k1 (purgeMissing rest) ?_
            intro p hp hh
            exact hmem (List.mem_map.mpr ⟨p, List.mem_of_mem_filter hp, hh⟩)
          simp [hitVal, dget, hnone]
        · rw [hitVal_purgeMissing c rest hrest]
          simp [hitVal, dget, hk]
      · rw [purgeMissing_cons_keep k1 v1 rest hv]
        by_cases hk : k1 = c
        · subst hk
          simp [hitVal, dget]
        · simp only [hitVal, dget, if_neg hk]
          exact hitVal_purgeMissing c rest hrest

theorem hitVal_ne_missing (st : Store) (c : Key) (w : Val)
    (h : hitVal st c = some w) : w ≠ Val.MISSING := by
  unfold hitVal at h
  cases hd : dget st c with
  | none => rw [hd] at h; simp at h
  | some w2 =>
      rw [hd] at h
      by_cases h2 : w2 = Val.MISSING
      · simp [h2] at h
      · simp [h2] at h
        subst h
        exact h2

theorem firstHit_ne_missing (st : Store) : (l : List Key) → (w : Val) →
    firstHit st l = some w → w ≠ Val.MISSING
  | [], w, h => by simp [firstHit] at h
  | c :: cs, w, h => by
      revert h
      cases hc : hitVal st c with
      | some w2 =>
          intro h
          have hw : w2 = w := by simpa [firstHit, hc] using h
          subst hw
          exact hitVal_ne_missing st c w2 hc
      | none =>
          intro h
          exact firstHit_ne_missing st cs w (by simpa [firstHit, hc] using h)

/-- C10: a binding whose stored value is the module-level `MISSING` sentinel
is invisible to lookup — for every variant and key, `__getitem__` behaves on
the store exactly as on the store with all `MISSING`-valued bindings removed
(keys assumed unique, as in a Python dict), skipping such candidates and
raising `KeyError` when none remain; consequently lookup can never return
the `MISSING` object itself. -/
theorem C10_missing_invisible (S : PySystem) (V : VariantName) (st : Store)
    (k : Key) (hnd : (st.map Prod.fst).Nodup) :
    getitem (vGetKeys S V) st k = getitem (vGetKeys S V) (purgeMissing st) k
    ∧ ∀ w, getitem (vGetKeys S V) st k = Except.ok w → w ≠ Val.MISSING := by
  constructor
  · have hfh : ∀ l, firstHit (purgeMissing st) l = firstHit st l := by
      intro l
      induction l with
      | nil => rfl
      | cons c cs ih => simp [firstHit, hitVal_purgeMissing c st hnd, ih]
    simp [getitem, hfh]
  · intro w hw
    unfold getitem at hw
    cases h : firstHit st (vGetKeys S V k) with
    | some w2 =>
        rw [h] at hw
        have hw2 : w2 = w := by simpa using hw
        subst hw2
        exact firstHit_ne_missing st (vGetKeys S V k) w2 h
    | none => rw [h] at hw; simp at hw

/-- Witness for C10: with the single binding `{atom 0: MISSING}`,
`InheritanceDict` lookup of `atom 0` behaves as on the purged (empty)
store. -/
theorem C10_witness :
    getitem (vGetKeys demoSys VariantName.inh)
        [(Key.atom 0, Val.MISSING)] (Key.atom 0)
      = getitem (vGetKeys demoSys VariantName.inh)
        (purgeMissing [(Key.atom 0, Val.MISSING)]) (Key.atom 0) :=
  (C10_missing_invisible demoSys VariantName.inh [(Key.atom 0, Val.MISSING)]
    (Key.atom 0) (by decide)).1
